import Mathlib

/-!
Verification of the discount-app-components repository core logic.

Part 1 embeds `src/config/rollup/namespaced-classname.js`: the scoped
CSS class-name generator (`generateScopedName`), its helper functions
(`discountsClassName`, `subcomponentClassName`, `variationClassName`,
`isComponent`, `stringHash`) and the three regular expressions it uses,
translated to executable functions over `String` / `List Char`.

Part 2 embeds the `ActiveDatesCard` component logic (`initShowEndDate`,
`getValidEndDateTime`, and the change handlers). The date utilities it
imports (`getDateTimeInShopTimeZone`, `getDateInUTC`,
`getNewDateAtEndOfDay`) live elsewhere in the repository and are
modelled from the spec.
-/

/-- Word character, the JavaScript regex class `\w` = `[A-Za-z0-9_]`. -/
def isWordChar (c : Char) : Bool :=
  c.isAlpha || c.isDigit || c == '_'

/-- Test of `COMPONENT_REGEX = /^[A-Z]\w+$/` : an uppercase ASCII letter
followed by at least one word character. -/
def componentRegexTest (s : String) : Bool :=
  match s.toList with
  | [] => false
  | c :: rest => c.isUpper && !rest.isEmpty && rest.all isWordChar

/-- JavaScript `s.split('-')` on the character list of a string: splits on
every dash; adjacent dashes and dashes at the ends yield empty segments. -/
def splitOnDash : List Char → List (List Char)
  | [] => [[]]
  | c :: rest =>
    if c == '-' then
      [] :: splitOnDash rest
    else
      match splitOnDash rest with
      | [] => [[c]]
      | h :: t => (c :: h) :: t

/-- Test of `SUBCOMPONENT_VARIATION_SELECTOR = /^\w+-\w+$/` : exactly one
dash with a nonempty run of word characters on each side. -/
def subcomponentVariationTest (s : String) : Bool :=
  match splitOnDash s.toList with
  | [a, b] => !a.isEmpty && a.all isWordChar && !b.isEmpty && b.all isWordChar
  | _ => false

/-- Whether the list `t` occurs in `l` starting at index `i`. -/
def listSub (t l : List Char) (i : Nat) : Bool :=
  (l.drop i).take t.length == t

/-- Semantics of `NESTED_COMPONENT_PATH_REGEX.exec(filename)` for
`/.*\/components\/(.*)\/components/` with JavaScript greedy matching:
the leading greedy `.*` places the literal `/components/` at the largest
index `i` that still lets the tail match, and the greedy capture group
then extends to the largest later occurrence of `/components`. Returns
the capture group of the match, or `none` when the pattern fails. -/
def nestedExec (filename : String) : Option String :=
  let l := filename.toList
  let pat1 := "/components/".toList
  let pat2 := "/components".toList
  let laterMatches (i : Nat) : List Nat :=
    (List.range (l.length + 1)).filter
      (fun j => decide (i + pat1.length ≤ j) && listSub pat2 l j)
  let starts :=
    (List.range (l.length + 1)).filter
      (fun i => listSub pat1 l i && !(laterMatches i).isEmpty)
  match starts.getLast? with
  | none => none
  | some i =>
    match (laterMatches i).getLast? with
    | none => none
    | some j => some (String.mk ((l.drop (i + pat1.length)).take (j - (i + pat1.length))))

/-- Node's posix `path.basename(path, ext)`: trailing slashes are dropped,
the portion after the last remaining slash is taken, and `ext` is removed
when it is a proper trailing suffix of that base name. -/
def basename (path ext : String) : String :=
  let l := path.toList
  if !l.isEmpty && l.all (· == '/') then "/"
  else
    let noSlash := (l.reverse.dropWhile (· == '/')).reverse
    let base := (noSlash.reverse.takeWhile (· != '/')).reverse
    let e := ext.toList
    if !e.isEmpty && e.isSuffixOf base && base != e then
      String.mk (base.take (base.length - e.length))
    else
      String.mk base

/-- Uppercases the first character of a word. -/
def capitalizeWord : List Char → List Char
  | [] => []
  | c :: rest => c.toUpper :: rest

/-- Modelled from the external change-case package's `camelCase` on the
hyphen-separated tokens this repository feeds it: the input is split on
dashes, every word is lowercased, and each word after the first has its
first letter uppercased before the words are joined. -/
def camelCaseModel (s : String) : String :=
  match (splitOnDash s.toList).map (fun w => w.map Char.toLower) with
  | [] => ""
  | w :: ws => String.mk (w ++ (ws.map capitalizeWord).flatten)

/-- Function `stringHash` of the source, one step of the loop body
`hash = (hash * 33) ^ str.charCodeAt(--i)`: JavaScript coerces the
product to 32 bits before the bitwise XOR, so on unsigned representatives
the step is a multiplication reduced mod 2^32 followed by XOR. -/
def hashStep (h c : Nat) : Nat :=
  (h * 33 % 4294967296) ^^^ c

/-- Function `stringHash` of the source: DJB2-XOR over the character
codes from the last character to the first, starting from 5381, returned
as the unsigned 32-bit value (`hash >>> 0`). -/
def stringHash (s : String) : Nat :=
  s.toList.reverse.foldl (fun h c => hashStep h c.toNat) 5381

/-- Base-36 digit character as produced by JavaScript
`Number.prototype.toString(36)`: `0`-`9` then lowercase `a`-`z`. -/
def base36Digit (n : Nat) : Char :=
  if n < 10 then Char.ofNat (48 + n) else Char.ofNat (87 + n)

/-- Base-36 rendering of a natural number below 36^7 (which covers every
unsigned 32-bit value), agreeing with JavaScript `n.toString(36)`:
seven digit positions with the leading zeros dropped. -/
def toBase36 (n : Nat) : List Char :=
  let ds := [n / 2176782336 % 36, n / 60466176 % 36, n / 1679616 % 36,
             n / 46656 % 36, n / 1296 % 36, n / 36 % 36, n % 36]
  let trimmed := ds.dropWhile (· == 0)
  (if trimmed.isEmpty then [0] else trimmed).map base36Digit

/-- Hash suffix of the source, `stringHash(name).toString(36).substr(0, 5)`. -/
def hashSuffix (name : String) : String :=
  String.mk ((toBase36 (stringHash name)).take 5)

/-- Function `discountsClassName` of the source. -/
def discountsClassName (className : String) : String :=
  "DiscountAppComponents-" ++ className

/-- Function `subcomponentClassName` of the source. -/
def subcomponentClassName (component subcomponent : String) : String :=
  component ++ "__" ++ subcomponent

/-- Function `variationClassName` of the source. -/
def variationClassName (component variation : String) : String :=
  component ++ "--" ++ variation

/-- Function `isComponent` of the source. -/
def isComponent (className : String) : Bool :=
  componentRegexTest className

/-- The local constant `discountsComponentName` of `generateScopedName`:
the parent-qualified component name derived from the file path. The
source checks `nestedComponentMatch && nestedComponentMatch.length > 1`,
which holds exactly when the regex matched, since `exec` then returns
the full match together with its one capture group. -/
def discountsComponentNameFor (filename : String) : String :=
  let componentName := basename filename ".scss"
  match nestedExec filename with
  | some parent => discountsClassName parent ++ "-" ++ componentName
  | none => discountsClassName componentName

/-- Function `generateScopedName` of the source, with the configuration
flag `includeHash` bound first and the external `camelCase` passed as the
parameter `cc`. -/
def generateScopedName (includeHash : Bool) (cc : String → String)
    (name filename : String) : String :=
  let componentName := basename filename ".scss"
  let discountsComponentName := discountsComponentNameFor filename
  let className :=
    if isComponent name then
      if componentName == name then discountsComponentName
      else subcomponentClassName discountsComponentName name
    else if subcomponentVariationTest name then
      let parts := splitOnDash name.toList
      variationClassName
        (subcomponentClassName discountsComponentName (String.mk (parts.getD 0 [])))
        (cc (String.mk (parts.getD 1 [])))
    else
      variationClassName discountsComponentName (cc name)
  let suffix := if includeHash then "_" ++ hashSuffix name else ""
  className ++ suffix

/-!
Part 2: the `ActiveDatesCard` date-range logic. Timestamps are modelled
as instants (minutes since an epoch, as integers); the ISO-8601 string
form produced by `toISOString` is canonical, so string identity between
field values coincides with instant equality in this model. A time zone
is modelled as its offset from UTC in minutes.
-/

/-- Modelled from the spec: the repository utility
`getDateTimeInShopTimeZone`, which converts a UTC timestamp into the
shop's local time zone; with an offset time-zone model this adds the
offset to obtain local wall-clock time. -/
def getDateTimeInShopTimeZone (utc tzOffset : Int) : Int :=
  utc + tzOffset

/-- Modelled from the spec: the repository utility `getDateInUTC`, which
converts a local wall-clock time in the given time zone back to UTC. -/
def getDateInUTC (localTime tzOffset : Int) : Int :=
  localTime - tzOffset

/-- Modelled from the spec: the repository utility
`getNewDateAtEndOfDay`, which moves a local time to the last instant of
its calendar day (minute granularity, days of 1440 minutes). -/
def getNewDateAtEndOfDay (localTime : Int) : Int :=
  (Int.fdiv localTime 1440) * 1440 + 1439

/-- Function `getValidEndDateTime` of the source: both timestamps are
converted into the shop time zone; when the start is at or after the end
the corrected end is the end of the start's local day converted back to
UTC, otherwise the requested end is returned unchanged. -/
def getValidEndDateTime (startDateTime endDateTime tzOffset : Int) : Int :=
  let startDate := getDateTimeInShopTimeZone startDateTime tzOffset
  let endDate := getDateTimeInShopTimeZone endDateTime tzOffset
  if endDate ≤ startDate then
    getDateInUTC (getNewDateAtEndOfDay startDate) tzOffset
  else
    endDateTime

/-- The `startDate` prop: a field whose value is a timestamp string and
whose error indicator is modelled as a boolean (set or not). -/
structure StartField where
  value : String
  error : Bool

/-- The `endDate` prop: a field whose value is a timestamp string or
null, with the same boolean error model. -/
structure EndField where
  value : Option String
  error : Bool

/-- JavaScript truthiness of a `string | null` value: `null` and the
empty string are falsy, every other string is truthy. -/
def truthyValue : Option String → Bool
  | none => false
  | some s => s != ""

/-- Function `initShowEndDate` of the source: `if (!endDate.value)`
return false; `else if (endDate.value !== null && endDate.error)` return
true; else return `startDate.value !== endDate.value`. -/
def initShowEndDate (startDate : StartField) (endDate : EndField) : Bool :=
  if !truthyValue endDate.value then false
  else if endDate.value != none && endDate.error then true
  else some startDate.value != endDate.value

/-- Component state read by the change handlers: the two field values
(timestamps as instants, the end nullable) and the `showEndDate` flag. -/
structure CardState where
  startValue : Int
  endValue : Option Int
  showEndDate : Bool
deriving DecidableEq

/-- One call a handler makes: `startDate.onChange`, `endDate.onChange`,
or the `setShowEndDate((prev) => !prev)` flip. -/
inductive Effect where
  | setStart (v : Int)
  | setEnd (v : Option Int)
  | toggleShow
deriving DecidableEq

/-- Modelled from the spec: the caller-owned `onChange` wiring, where a
field's `onChange` stores the new value and the state setter flips the
flag. -/
def applyEffect (st : CardState) : Effect → CardState
  | Effect.setStart v => { st with startValue := v }
  | Effect.setEnd v => { st with endValue := v }
  | Effect.toggleShow => { st with showEndDate := !st.showEndDate }

/-- Runs a handler's calls in order against a state. -/
def runEffects (st : CardState) (l : List Effect) : CardState :=
  l.foldl applyEffect st

/-- Function `handleStartDateTimeChange` of the source as the list of
calls it makes: it always propagates the next start, and when the end
value is present it propagates the corrected end exactly when the
correction differs from the current end value. -/
def handleStartDateTimeChange (tzOffset : Int) (st : CardState)
    (nextStart : Int) : List Effect :=
  Effect.setStart nextStart ::
    (match st.endValue with
     | some e =>
       let nextEnd := getValidEndDateTime nextStart e tzOffset
       if nextEnd ≠ e then [Effect.setEnd (some nextEnd)] else []
     | none => [])

/-- Function `handleEndDateTimeChange` of the source as the list of
calls it makes: it always propagates the corrected requested end. -/
def handleEndDateTimeChange (tzOffset : Int) (st : CardState)
    (requestedEndDate : Int) : List Effect :=
  [Effect.setEnd (some (getValidEndDateTime st.startValue requestedEndDate tzOffset))]

/-- Function `handleShowEndDateChange` of the source as the list of
calls it makes: when the end date is shown it clears the end value, and
when hidden it proposes the end of the start's local day converted to
UTC; in both cases the visibility flag is flipped afterwards. -/
def handleShowEndDateChange (tzOffset : Int) (st : CardState) : List Effect :=
  (if st.showEndDate then
    [Effect.setEnd none]
  else
    let startDateInShopTZ := getDateTimeInShopTimeZone st.startValue tzOffset
    let endDateAtEndOfDay := getDateInUTC (getNewDateAtEndOfDay startDateInShopTZ) tzOffset
    [Effect.setEnd (some endDateAtEndOfDay)]) ++ [Effect.toggleShow]

/-- Signed 32-bit reinterpretation of an unsigned 32-bit bit pattern, as
used by the claim's description of the hash: values at or above 2^31
represent negatives. -/
def toSigned32 (n : Nat) : Int :=
  if n < 2147483648 then (n : Int) else (n : Int) - 4294967296

/-- Unsigned 32-bit reinterpretation of a signed 32-bit value, the
JavaScript `>>> 0` coercion. -/
def toUnsigned32 (i : Int) : Nat :=
  (i % 4294967296).toNat

/-- One step of the hash as the claim words it: `hash = (hash * 33) XOR
charCode` performed as signed 32-bit wraparound arithmetic, the XOR
acting on the 32-bit two's-complement bit pattern. -/
def signedHashStep (h : Int) (c : Nat) : Int :=
  toSigned32 (toUnsigned32 (h * 33) ^^^ c)

/-- The DJB2-XOR hash exactly as the claim describes it: start from
5381, iterate the string from its last character to its first with the
signed 32-bit step, then reinterpret the final signed result as an
unsigned 32-bit integer. -/
def stringHashSigned (s : String) : Nat :=
  toUnsigned32 (s.toList.reverse.foldl (fun h c => signedHashStep h c.toNat) 5381)

/-- Character is a lowercase base-36 digit: `0`-`9` or `a`-`z`. -/
def isBase36LowerChar (c : Char) : Bool :=
  decide (48 ≤ c.toNat ∧ c.toNat ≤ 57) || decide (97 ≤ c.toNat ∧ c.toNat ≤ 122)

/-! Helper lemmas. -/

/-- Every character code is below 2^32. -/
theorem char_toNat_lt_two32 (c : Char) : c.toNat < 4294967296 := by
  have h : c.val.toNat < 55296 ∨ (57344 ≤ c.val.toNat ∧ c.val.toNat < 1114112) := c.valid
  have hv : c.toNat = c.val.toNat := rfl
  rcases h with h | ⟨h1, h2⟩ <;> omega

/-- The unsigned hash step stays below 2^32. -/
theorem hashStep_lt (h c : Nat) (hc : c < 4294967296) : hashStep h c < 4294967296 := by
  have h1 : h * 33 % 4294967296 < 2 ^ 32 := by
    have := Nat.mod_lt (h * 33) (y := 4294967296) (by norm_num)
    omega
  have h2 : c < 2 ^ 32 := by omega
  have h3 := Nat.xor_lt_two_pow h1 h2
  unfold hashStep
  omega

/-- Folding the unsigned hash step preserves the 2^32 bound. -/
theorem foldl_hash_lt (l : List Char) (a : Nat) (ha : a < 4294967296) :
    l.foldl (fun h c => hashStep h c.toNat) a < 4294967296 := by
  induction l generalizing a with
  | nil => simpa using ha
  | cons c t ih => exact ih _ (hashStep_lt _ _ (char_toNat_lt_two32 c))

/-- The source hash always lies below 2^32. -/
theorem stringHash_lt (s : String) : stringHash s < 4294967296 :=
  foldl_hash_lt _ _ (by norm_num)

/-- Reinterpreting signed then unsigned is the identity below 2^32. -/
theorem toUnsigned32_toSigned32 {n : Nat} (h : n < 4294967296) :
    toUnsigned32 (toSigned32 n) = n := by
  unfold toSigned32 toUnsigned32
  split <;> omega

/-- The wrapped signed product has the same 32-bit pattern as the
unsigned product reduced mod 2^32. -/
theorem toUnsigned32_mul33 {n : Nat} (h : n < 4294967296) :
    toUnsigned32 (toSigned32 n * 33) = n * 33 % 4294967296 := by
  unfold toSigned32 toUnsigned32
  split <;> omega

/-- On corresponding representatives the signed and unsigned hash steps
agree. -/
theorem signedHashStep_eq {n : Nat} (h : n < 4294967296) (c : Nat) :
    signedHashStep (toSigned32 n) c = toSigned32 (hashStep n c) := by
  unfold signedHashStep hashStep
  rw [toUnsigned32_mul33 h]

/-- Folding the signed step mirrors folding the unsigned step. -/
theorem foldl_signed_eq (l : List Char) (a : Nat) (ha : a < 4294967296) :
    l.foldl (fun h c => signedHashStep h c.toNat) (toSigned32 a) =
      toSigned32 (l.foldl (fun h c => hashStep h c.toNat) a) := by
  induction l generalizing a with
  | nil => rfl
  | cons c t ih =>
    simp only [List.foldl_cons]
    rw [signedHashStep_eq ha]
    exact ih _ (hashStep_lt _ _ (char_toNat_lt_two32 c))

/-- A base-36 digit below 36 renders as a digit or lowercase letter. -/
theorem base36Digit_lower {d : Nat} (hd : d < 36) :
    isBase36LowerChar (base36Digit d) = true := by
  interval_cases d <;> decide

/-- Dropping a prefix preserves a `List.all` bound. -/
theorem all_of_dropWhile {α : Type} (p q : α → Bool) (l : List α)
    (h : l.all q = true) : (l.dropWhile p).all q = true := by
  induction l with
  | nil => simp
  | cons a t ih =>
    simp only [List.all_cons, Bool.and_eq_true] at h
    rw [List.dropWhile_cons]
    cases hp : p a
    · simp [List.all_cons, h.1, h.2]
    · simp only [if_pos rfl]
      exact ih h.2

/-- Every character of a base-36 rendering is a lowercase base-36 digit. -/
theorem toBase36_all_lower (n : Nat) :
    (toBase36 n).all isBase36LowerChar = true := by
  have hds : ([n / 2176782336 % 36, n / 60466176 % 36, n / 1679616 % 36,
      n / 46656 % 36, n / 1296 % 36, n / 36 % 36, n % 36]).all
        (fun d => decide (d < 36)) = true := by
    simp only [List.all_cons, List.all_nil, Bool.and_eq_true, decide_eq_true_eq, and_true]
    omega
  have htr := all_of_dropWhile (fun d => d == 0) (fun d => decide (d < 36)) _ hds
  simp only [toBase36]
  rw [List.all_eq_true]
  intro c hc
  rw [List.mem_map] at hc
  obtain ⟨d, hd, rfl⟩ := hc
  apply base36Digit_lower
  by_cases he : (([n / 2176782336 % 36, n / 60466176 % 36, n / 1679616 % 36,
      n / 46656 % 36, n / 1296 % 36, n / 36 % 36, n % 36]).dropWhile
        (fun d => d == 0)).isEmpty = true
  · rw [if_pos he] at hd
    simp only [List.mem_singleton] at hd
    omega
  · rw [if_neg he] at hd
    have := List.all_eq_true.mp htr d hd
    simpa using this

/-- When the hash value is at least 36^4 the trimmed digit list keeps at
least five digits. -/
theorem dropWhile_digits_len {n : Nat} (h4 : 1679616 ≤ n) (h32 : n < 4294967296) :
    5 ≤ (([n / 2176782336 % 36, n / 60466176 % 36, n / 1679616 % 36,
        n / 46656 % 36, n / 1296 % 36, n / 36 % 36, n % 36]).dropWhile
          (fun d => d == 0)).length := by
  cases h0 : (n / 2176782336 % 36 == 0)
  · simp [List.dropWhile_cons, h0]
  · cases h1 : (n / 60466176 % 36 == 0)
    · simp [List.dropWhile_cons, h0, h1]
    · cases h2 : (n / 1679616 % 36 == 0)
      · simp [List.dropWhile_cons, h0, h1, h2]
      · exfalso
        simp only [beq_iff_eq] at h0 h1 h2
        omega

/-- For hash values of at least 36^4 the rendered base-36 string has at
least five characters. -/
theorem toBase36_len_ge5 {n : Nat} (h4 : 1679616 ≤ n) (h32 : n < 4294967296) :
    5 ≤ (toBase36 n).length := by
  have h := dropWhile_digits_len h4 h32
  simp only [toBase36]
  rcases hl : ([n / 2176782336 % 36, n / 60466176 % 36, n / 1679616 % 36,
      n / 46656 % 36, n / 1296 % 36, n / 36 % 36, n % 36]).dropWhile
        (fun d => d == 0) with _ | ⟨a, t⟩
  · rw [hl] at h
    simp at h
  · rw [hl] at h
    simpa using h

/-- The dash-split of a character list is never empty. -/
theorem splitOnDash_ne_nil (l : List Char) : splitOnDash l ≠ [] := by
  cases l with
  | nil => simp [splitOnDash]
  | cons c rest =>
    unfold splitOnDash
    split
    · simp
    · rcases splitOnDash rest with _ | ⟨h, t⟩ <;> simp

/-- The dash-split has one more segment than the list has dashes. -/
theorem splitOnDash_length (l : List Char) :
    (splitOnDash l).length = l.count '-' + 1 := by
  induction l with
  | nil => simp [splitOnDash]
  | cons c rest ih =>
    unfold splitOnDash
    cases hc : (c == '-')
    · have hcc : ¬ c = '-' := by simpa using hc
      rcases hsp : splitOnDash rest with _ | ⟨h, t⟩
      · exact absurd hsp (splitOnDash_ne_nil rest)
      · rw [hsp] at ih
        simp at ih
        simp [hc, hsp, List.count_cons, hcc]
        omega
    · have hcc : c = '-' := by simpa using hc
      simp [hc, List.count_cons, hcc]
      omega

/-- A name containing a dash never matches the component pattern. -/
theorem componentRegexTest_false_of_dash {s : String} (h : '-' ∈ s.toList) :
    componentRegexTest s = false := by
  unfold componentRegexTest
  rcases hl : s.toList with _ | ⟨c, rest⟩
  · rfl
  · rw [hl] at h
    rcases List.mem_cons.mp h with hc | hr
    · have hcu : c.isUpper = false := by rw [← hc]; decide
      simp [hcu]
    · have hall2 : rest.all isWordChar = false := by
        cases hall : rest.all isWordChar
        · rfl
        · exact absurd (List.all_eq_true.mp hall '-' hr) (by decide)
      simp [hall2]

/-- A name with two or more dashes never matches the
subcomponent-variation pattern. -/
theorem subcomponentVariationTest_false_of_two {s : String}
    (h : 2 ≤ s.toList.count '-') : subcomponentVariationTest s = false := by
  have hlen := splitOnDash_length s.toList
  unfold subcomponentVariationTest
  rcases hsp : splitOnDash s.toList with _ | ⟨a, _ | ⟨b, _ | ⟨c, t⟩⟩⟩
  · rfl
  · rfl
  · exfalso
    rw [hsp] at hlen
    simp at hlen h
    omega
  · rfl

/-- The parent-qualified component name always starts with the fixed
namespace. -/
theorem discountsComponentNameFor_shape (filename : String) :
    ∃ t, discountsComponentNameFor filename = "DiscountAppComponents-" ++ t := by
  simp only [discountsComponentNameFor, discountsClassName]
  rcases nestedExec filename with _ | p
  · exact ⟨_, rfl⟩
  · refine ⟨p ++ ("-" ++ basename filename ".scss"), ?_⟩
    simp only [String.append_assoc]

/-! Claim theorems. -/

/-- Claim C1: for every start timestamp, end timestamp and time zone,
`getValidEndDateTime` compares the two local times; when the local start
is at or after the local end it returns the end of the start's local day
converted back to UTC, and otherwise it returns the end timestamp
unchanged. -/
theorem claim1_getValidEndDateTime
    (startDateTime endDateTime tzOffset : Int) :
    (getDateTimeInShopTimeZone endDateTime tzOffset ≤
        getDateTimeInShopTimeZone startDateTime tzOffset →
      getValidEndDateTime startDateTime endDateTime tzOffset =
        getDateInUTC (getNewDateAtEndOfDay
          (getDateTimeInShopTimeZone startDateTime tzOffset)) tzOffset) ∧
    (getDateTimeInShopTimeZone startDateTime tzOffset <
        getDateTimeInShopTimeZone endDateTime tzOffset →
      getValidEndDateTime startDateTime endDateTime tzOffset = endDateTime) := by
  unfold getValidEndDateTime getDateTimeInShopTimeZone
  constructor <;> intro h
  · rw [if_pos h]
  · rw [if_neg (by omega)]

/-- Claim C1 witness: concrete instances for both branches. -/
theorem claim1_witness :
    (getDateTimeInShopTimeZone 500 60 ≤ getDateTimeInShopTimeZone 1000 60 ∧
      getValidEndDateTime 1000 500 60 =
        getDateInUTC (getNewDateAtEndOfDay (getDateTimeInShopTimeZone 1000 60)) 60) ∧
    (getDateTimeInShopTimeZone 1000 60 < getDateTimeInShopTimeZone 2000 60 ∧
      getValidEndDateTime 1000 2000 60 = 2000) :=
  ⟨⟨by decide, (claim1_getValidEndDateTime 1000 500 60).1 (by decide)⟩,
   ⟨by decide, (claim1_getValidEndDateTime 1000 2000 60).2 (by decide)⟩⟩

/-- Claim C2 counterexample: on the claim's exact inputs the generator
returns the singly-namespaced name, not the double-wrapped one, because
the relative path has no occurrence of `/components/` followed by a
later `/components`, so the nested-component pattern fails to match. -/
theorem claim2_counterexample :
    generateScopedName false camelCaseModel "Inner"
        "components/Outer/components/Inner/Inner.scss"
      = "DiscountAppComponents-Inner" ∧
    generateScopedName false camelCaseModel "Inner"
        "components/Outer/components/Inner/Inner.scss"
      ≠ "DiscountAppComponents-DiscountAppComponents-Outer-Inner" := by
  constructor <;> decide

/-- Claim C2 as amended: the claim's relative path does not match the
nested-component pattern and yields `DiscountAppComponents-Inner`; a path
in which the same nesting is preceded by a directory does match, and the
result wraps the parent capture once, giving
`DiscountAppComponents-Outer-Inner`. -/
theorem claim2_amended :
    generateScopedName false camelCaseModel "Inner"
        "components/Outer/components/Inner/Inner.scss"
      = "DiscountAppComponents-Inner" ∧
    generateScopedName false camelCaseModel "Inner"
        "src/components/Outer/components/Inner/Inner.scss"
      = "DiscountAppComponents-Outer-Inner" := by
  constructor <;> decide

/-- Claim C3 counterexample: for the rule name `a` the hash renders in
base 36 as the four-character `3t1g`, so the appended suffix has four
characters, not exactly five. -/
theorem claim3_counterexample :
    generateScopedName true camelCaseModel "a" "components/Card/Card.scss"
      = "DiscountAppComponents-Card--a_3t1g" ∧
    (hashSuffix "a").length = 4 := by
  constructor <;> decide

/-- Claim C3 as amended: with `includeHash` the generator appends an
underscore followed by the first at-most-five base-36 digits of the hash
of the rule name; the suffix consists only of lowercase base-36
characters, is identical across repeated calls by determinism of
`stringHash`, and has exactly five characters whenever the hash is at
least 36^4. -/
theorem claim3_hashSuffix (cc : String → String) (name filename : String) :
    generateScopedName true cc name filename =
        generateScopedName false cc name filename ++ "_" ++ hashSuffix name ∧
    (hashSuffix name).length ≤ 5 ∧
    (hashSuffix name).toList.all isBase36LowerChar = true ∧
    (1679616 ≤ stringHash name → (hashSuffix name).length = 5) := by
  refine ⟨?_, ?_, ?_, ?_⟩
  · simp only [generateScopedName, if_pos rfl]
    simp [String.append_assoc, String.append_empty]
  · simp only [hashSuffix, String.length, String.mk]
    have := List.length_take 5 (toBase36 (stringHash name))
    omega
  · simp only [hashSuffix, String.toList, String.mk]
    rw [List.all_eq_true]
    intro c hc
    exact List.all_eq_true.mp (toBase36_all_lower (stringHash name)) c
      (List.mem_of_mem_take hc)
  · intro h4
    have h5 := toBase36_len_ge5 h4 (stringHash_lt name)
    simp only [hashSuffix, String.length, String.mk]
    have := List.length_take 5 (toBase36 (stringHash name))
    omega

/-- Claim C3 witness: the rule name `Card` has a hash of at least 36^4
and its suffix has exactly five characters. -/
theorem claim3_witness :
    1679616 ≤ stringHash "Card" ∧ (hashSuffix "Card").length = 5 :=
  ⟨by decide,
   (claim3_hashSuffix camelCaseModel "Card" "components/Card/Card.scss").2.2.2 (by decide)⟩

/-- Claim C4 counterexample: the rule name `a-b-c` has two dashes, so it
matches neither regex and is handled as a plain variation; the output is
not the claimed subcomponent-variation form built from the first two
segments. -/
theorem claim4_counterexample :
    generateScopedName false camelCaseModel "a-b-c" "components/Card/Card.scss"
      = "DiscountAppComponents-Card--aBC" ∧
    generateScopedName false camelCaseModel "a-b-c" "components/Card/Card.scss"
      ≠ variationClassName
          (subcomponentClassName
            (discountsComponentNameFor "components/Card/Card.scss") "a")
          (camelCaseModel "b") := by
  constructor <;> decide

/-- Claim C4 as amended: a rule name containing more than one hyphen
matches neither the component pattern (which forbids hyphens) nor the
subcomponent-variation pattern (which demands exactly one hyphen), so
the generator treats it as a plain variation of the file's component:
the parent-qualified name, `--`, and the camel-cased whole rule name. -/
theorem claim4_multiDash (includeHash : Bool) (cc : String → String)
    (name filename : String) (h : 2 ≤ name.toList.count '-') :
    generateScopedName includeHash cc name filename =
      variationClassName (discountsComponentNameFor filename) (cc name) ++
        (if includeHash then "_" ++ hashSuffix name else "") := by
  have hmem : '-' ∈ name.toList := by
    have hpos : 0 < name.toList.count '-' := by omega
    exact List.count_pos_iff.mp hpos
  have h1 : isComponent name = false := by
    unfold isComponent
    exact componentRegexTest_false_of_dash hmem
  have h2 : subcomponentVariationTest name = false :=
    subcomponentVariationTest_false_of_two h
  simp only [generateScopedName, h1, h2]
  simp

/-- Claim C4 witness: the amended statement evaluated at the rule name
`a-b-c`. -/
theorem claim4_witness :
    2 ≤ ("a-b-c" : String).toList.count '-' ∧
    generateScopedName false camelCaseModel "a-b-c" "components/Card/Card.scss" =
      variationClassName (discountsComponentNameFor "components/Card/Card.scss")
          (camelCaseModel "a-b-c") ++
        (if false then "_" ++ hashSuffix "a-b-c" else "") :=
  ⟨by decide,
   claim4_multiDash false camelCaseModel "a-b-c" "components/Card/Card.scss" (by decide)⟩

/-- Claim C5: the hash of every string is below 2^32 and coincides with
the DJB2-XOR hash computed with signed 32-bit wraparound arithmetic and
a final unsigned reinterpretation, as the claim describes; determinism
holds because `stringHash` is a pure function of its argument. -/
theorem claim5_stringHash (s : String) :
    stringHash s < 4294967296 ∧ stringHash s = stringHashSigned s := by
  refine ⟨stringHash_lt s, ?_⟩
  unfold stringHashSigned stringHash
  have h5381 : (5381 : Int) = toSigned32 5381 := by decide
  rw [h5381, foldl_signed_eq _ _ (by norm_num),
    toUnsigned32_toSigned32 (foldl_hash_lt _ _ (by norm_num))]

/-- Claim C6: for every rule name, file path, hash flag and camel-case
function, the generator totally computes a class name that starts with
the namespace `DiscountAppComponents-`. -/
theorem claim6_namespaced (includeHash : Bool) (cc : String → String)
    (name filename : String) :
    ∃ t, generateScopedName includeHash cc name filename =
      "DiscountAppComponents-" ++ t := by
  obtain ⟨x, hx⟩ := discountsComponentNameFor_shape filename
  simp only [generateScopedName, hx, subcomponentClassName, variationClassName]
  simp only [String.append_assoc]
  split
  · split
    · exact ⟨_, rfl⟩
    · exact ⟨_, rfl⟩
  · split
    · exact ⟨_, rfl⟩
    · exact ⟨_, rfl⟩

/-- Claim C7 counterexample: an end value that is the empty string is
non-null and carries an error, yet `initShowEndDate` returns false,
because the absence test `!endDate.value` is a truthiness check that the
empty string fails. -/
theorem claim7_counterexample :
    (some "" ≠ (none : Option String)) ∧
    initShowEndDate ⟨"2023-01-01T00:00:00.000Z", false⟩ ⟨some "", true⟩ = false := by
  constructor
  · decide
  · decide

/-- Claim C7 as amended: `initShowEndDate` returns false when the end
value is null or the empty string; true when the end value is a
non-empty string and the error is set; and otherwise true exactly when
the two value strings differ. -/
theorem claim7_initShowEndDate (sf : StartField) (ef : EndField) :
    (truthyValue ef.value = false → initShowEndDate sf ef = false) ∧
    (truthyValue ef.value = true → ef.error = true → initShowEndDate sf ef = true) ∧
    (truthyValue ef.value = true → ef.error = false →
      (initShowEndDate sf ef = true ↔ some sf.value ≠ ef.value)) := by
  refine ⟨?_, ?_, ?_⟩
  · intro hf
    simp [initShowEndDate, hf]
  · intro ht he
    rcases hv : ef.value with _ | v
    · rw [hv] at ht
      simp [truthyValue] at ht
    · simp [initShowEndDate, hv, ht, he]
      rw [hv] at ht
      simpa [truthyValue] using ht
  · intro ht he
    rcases hv : ef.value with _ | v
    · rw [hv] at ht
      simp [truthyValue] at ht
    · rw [hv] at ht
      simp [initShowEndDate, hv, ht, he]

/-- Claim C7 witness: the three amended branches at concrete fields. -/
theorem claim7_witness :
    (truthyValue (none : Option String) = false ∧
      initShowEndDate ⟨"A", false⟩ ⟨none, false⟩ = false) ∧
    (truthyValue (some "B") = true ∧ ((⟨some "B", true⟩ : EndField).error = true) ∧
      initShowEndDate ⟨"A", false⟩ ⟨some "B", true⟩ = true) ∧
    (truthyValue (some "A") = true ∧ ((⟨some "A", false⟩ : EndField).error = false) ∧
      (initShowEndDate ⟨"A", false⟩ ⟨some "A", false⟩ = true ↔
        some "A" ≠ some "A")) :=
  ⟨⟨rfl, (claim7_initShowEndDate ⟨"A", false⟩ ⟨none, false⟩).1 rfl⟩,
   ⟨rfl, rfl, (claim7_initShowEndDate ⟨"A", false⟩ ⟨some "B", true⟩).2.1 rfl rfl⟩,
   ⟨rfl, rfl, (claim7_initShowEndDate ⟨"A", false⟩ ⟨some "A", false⟩).2.2 rfl rfl⟩⟩

/-- Claim C10: whenever the end value is the empty string,
`initShowEndDate` returns false for every start field and either error
state, since the truthiness test on the value already fails. -/
theorem claim10_emptyString (startDate : StartField) (err : Bool) :
    initShowEndDate startDate ⟨some "", err⟩ = false := by
  simp [initShowEndDate, truthyValue]

/-- Claim C8: the start-change handler always emits the start update;
it emits an end update exactly when an end value is present and the
corrected end differs from it; and it never touches the visibility
flag. -/
theorem claim8_handleStartChange (tzOffset : Int) (st : CardState) (nextStart : Int) :
    Effect.setStart nextStart ∈ handleStartDateTimeChange tzOffset st nextStart ∧
    ((∃ v, Effect.setEnd v ∈ handleStartDateTimeChange tzOffset st nextStart) ↔
      (∃ e, st.endValue = some e ∧ getValidEndDateTime nextStart e tzOffset ≠ e)) ∧
    Effect.toggleShow ∉ handleStartDateTimeChange tzOffset st nextStart := by
  unfold handleStartDateTimeChange
  rcases hend : st.endValue with _ | e
  · simp
  · by_cases hne : getValidEndDateTime nextStart e tzOffset ≠ e
    · simp [hne]
    · simp [hne]

/-- Claim C9: starting with the end date shown, toggling the visibility
twice first clears the end value, then regenerates it as the end of the
start's local day converted to UTC, and leaves the flag set again. -/
theorem claim9_toggleTwice (tzOffset : Int) (st : CardState)
    (h : st.showEndDate = true) :
    (runEffects st (handleShowEndDateChange tzOffset st)).endValue = none ∧
    (runEffects (runEffects st (handleShowEndDateChange tzOffset st))
        (handleShowEndDateChange tzOffset
          (runEffects st (handleShowEndDateChange tzOffset st)))).endValue
      = some (getDateInUTC (getNewDateAtEndOfDay
          (getDateTimeInShopTimeZone st.startValue tzOffset)) tzOffset) ∧
    (runEffects (runEffects st (handleShowEndDateChange tzOffset st))
        (handleShowEndDateChange tzOffset
          (runEffects st (handleShowEndDateChange tzOffset st)))).showEndDate
      = true := by
  simp [handleShowEndDateChange, runEffects, applyEffect, h]

/-- Claim C9 witness: the double toggle evaluated on a concrete shown
state. -/
theorem claim9_witness :
    (⟨1000, some 5, true⟩ : CardState).showEndDate = true ∧
    ((runEffects ⟨1000, some 5, true⟩
        (handleShowEndDateChange 60 ⟨1000, some 5, true⟩)).endValue = none ∧
      (runEffects (runEffects ⟨1000, some 5, true⟩
          (handleShowEndDateChange 60 ⟨1000, some 5, true⟩))
          (handleShowEndDateChange 60
            (runEffects ⟨1000, some 5, true⟩
              (handleShowEndDateChange 60 ⟨1000, some 5, true⟩)))).endValue
        = some (getDateInUTC (getNewDateAtEndOfDay
            (getDateTimeInShopTimeZone (⟨1000, some 5, true⟩ : CardState).startValue 60)) 60) ∧
      (runEffects (runEffects ⟨1000, some 5, true⟩
          (handleShowEndDateChange 60 ⟨1000, some 5, true⟩))
          (handleShowEndDateChange 60
            (runEffects ⟨1000, some 5, true⟩
              (handleShowEndDateChange 60 ⟨1000, some 5, true⟩)))).showEndDate
        = true) :=
  ⟨rfl, claim9_toggleTwice 60 ⟨1000, some 5, true⟩ rfl⟩

/-- Claim C8 witness: the handler effects evaluated on a concrete state
without an end value. -/
theorem claim8_witness :
    Effect.setStart 1000 ∈ handleStartDateTimeChange 60 ⟨0, none, false⟩ 1000 ∧
    ((∃ v, Effect.setEnd v ∈ handleStartDateTimeChange 60 ⟨0, none, false⟩ 1000) ↔
      (∃ e, (⟨0, none, false⟩ : CardState).endValue = some e ∧
        getValidEndDateTime 1000 e 60 ≠ e)) ∧
    Effect.toggleShow ∉ handleStartDateTimeChange 60 ⟨0, none, false⟩ 1000 :=
  claim8_handleStartChange 60 ⟨0, none, false⟩ 1000
